import Mathlib

/-!
A shallow embedding of the execution core of the `btc_algo_trader` repository:
the paper (simulated-ledger) executor `src/execution/paper_executor.py`, the
order manager `src/execution/order_manager.py`, the vectorized SMA backtester
`src/backtesting/vectorized/sma_backtester.py` (its `run` stage), and the Kelly
sizing function `src/backtesting/performance.py::optimal_leverage`.

Python floats are modelled as exact rationals (`ℚ`); stateful methods become
explicit state-passing functions; `Optional[Dict]` order results become
`Option OrderResult`.
-/

namespace AlgoTrader

/-- An order result as produced by `PaperExecutor._log_order`
(`paper_executor.py`, lines 109-128): the dict keys become fields; the
string `side`/`type` keys become small enumerations; the `"paper-{n}"` id is
kept as the counter `n`; `status` is always `"closed"` and is omitted. -/
inductive OrderSide where
  | buy
  | sell
  deriving DecidableEq, Repr

/-- The `type` key of an order dict: `"market"` or `"limit"`. -/
inductive OrderType where
  | market
  | limit
  deriving DecidableEq, Repr

/-- The dict returned by `PaperExecutor._log_order`. -/
structure OrderResult where
  id : Nat
  side : OrderSide
  otype : OrderType
  amount : ℚ
  filled : ℚ
  price : ℚ
  cost : ℚ
  tc : ℚ
  deriving DecidableEq, Repr

/-- The mutable state of `PaperExecutor` (`paper_executor.py`, `__init__`):
`_usdt`, `_btc`, `_ptc`, `_ftc`, `_last_price`, `_order_count`, `_trade_log`. -/
structure PaperState where
  usdt : ℚ
  btc : ℚ
  ptc : ℚ
  ftc : ℚ
  lastPrice : ℚ
  orderCount : Nat
  tradeLog : List OrderResult
  deriving DecidableEq, Repr

/-- The dict returned by `get_balance`: both broker implementations in the
repository always populate all four keys, in particular `USDT_total`. -/
structure Balance where
  usdt_free : ℚ
  usdt_total : ℚ
  btc_free : ℚ
  btc_total : ℚ
  deriving DecidableEq, Repr

namespace PaperExecutor

/-- Python `PaperExecutor.__init__(initial_usdt, ptc, ftc)`: fresh ledger, default
last price 50000, empty trade log. -/
def init (initial_usdt ptc ftc : ℚ) : PaperState :=
  { usdt := initial_usdt, btc := 0, ptc := ptc, ftc := ftc,
    lastPrice := 50000, orderCount := 0, tradeLog := [] }

/-- Python `PaperExecutor.set_price`. -/
def set_price (s : PaperState) (price : ℚ) : PaperState :=
  { s with lastPrice := price }

/-- Python `PaperExecutor.get_balance`. -/
def get_balance (s : PaperState) : Balance :=
  { usdt_free := s.usdt,
    usdt_total := s.usdt + s.btc * s.lastPrice,
    btc_free := s.btc,
    btc_total := s.btc }

/-- Python `PaperExecutor._log_order`: bump the order counter, append the order dict
to the trade log, and return the order. -/
def log_order (s : PaperState) (side : OrderSide) (otype : OrderType)
    (amount price tc : ℚ) : PaperState × OrderResult :=
  let n := s.orderCount + 1
  let order : OrderResult :=
    { id := n, side := side, otype := otype, amount := amount,
      filled := amount, price := price, cost := amount * price, tc := tc }
  ({ s with orderCount := n, tradeLog := s.tradeLog ++ [order] }, order)

/-- Python `PaperExecutor.market_buy(amount)`: rejects (returns `none`, state
untouched) when `cost + tc > usdt`; otherwise deducts `cost + tc` from cash,
adds `amount` to the asset balance, and logs the fill. -/
def market_buy (s : PaperState) (amount : ℚ) : PaperState × Option OrderResult :=
  let cost := amount * s.lastPrice
  let tc := cost * s.ptc + s.ftc
  if s.usdt < cost + tc then (s, none)
  else
    let s' := { s with usdt := s.usdt - (cost + tc), btc := s.btc + amount }
    let (s'', order) := log_order s' .buy .market amount s.lastPrice tc
    (s'', some order)

/-- Python `PaperExecutor.market_sell(amount, **kwargs)`: rejects when
`amount > btc` *and* the `reduce_only` keyword argument is absent or falsy;
otherwise credits `proceeds - tc` to cash and removes `amount` from the asset
balance. `reduceOnly` models the truthiness of `kwargs.get("reduce_only")`. -/
def market_sell (s : PaperState) (amount : ℚ) (reduceOnly : Bool) :
    PaperState × Option OrderResult :=
  if s.btc < amount ∧ reduceOnly = false then (s, none)
  else
    let proceeds := amount * s.lastPrice
    let tc := proceeds * s.ptc + s.ftc
    let s' := { s with usdt := s.usdt + (proceeds - tc), btc := s.btc - amount }
    let (s'', order) := log_order s' .sell .market amount s.lastPrice tc
    (s'', some order)

/-- Python `PaperExecutor.cancel_all_orders`: always succeeds, no state change. -/
def cancel_all_orders (s : PaperState) : PaperState × Bool :=
  (s, true)

end PaperExecutor

/-- The `BrokerBase` contract (`broker_base.py`) restricted to the operations
the order manager actually invokes, as a record of state-transformers over an
abstract broker state `σ`. `OrderManager` calls `market_sell` without keyword
arguments, so the contract's sell takes only an amount. -/
structure Broker (σ : Type) where
  get_balance : σ → Balance
  market_buy : σ → ℚ → σ × Option OrderResult
  market_sell : σ → ℚ → σ × Option OrderResult
  cancel_all_orders : σ → σ × Bool

/-- The `PaperExecutor` instance of the broker contract; a bare
`market_sell(amount)` call has no `reduce_only` kwarg, hence `false`. -/
def paperBroker : Broker PaperState :=
  { get_balance := PaperExecutor.get_balance,
    market_buy := PaperExecutor.market_buy,
    market_sell := fun s a => PaperExecutor.market_sell s a false,
    cancel_all_orders := PaperExecutor.cancel_all_orders }

/-- Python `Position` (`order_manager.py`, lines 17-24): side is +1 long, -1 short,
0 flat; default construction `Position()` is the flat position. -/
structure Position where
  side : Int := 0
  entry_price : ℚ := 0
  amount : ℚ := 0
  unrealized_pnl : ℚ := 0
  deriving DecidableEq, Repr

/-- The flat position `Position()`. -/
def Position.flat : Position := {}

/-- A trade record appended by `OrderManager._record_close`. -/
structure TradeRecord where
  side : Int
  entry : ℚ
  exit : ℚ
  amount : ℚ
  pnl : ℚ
  deriving DecidableEq, Repr

/-- The mutable state of `OrderManager` (`order_manager.py`, `__init__`),
with the injected executor state inlined as `executor : σ`. -/
structure OMState (σ : Type) where
  executor : σ
  max_position_size : ℚ
  max_drawdown_pct : ℚ
  initial_capital : ℚ
  position : Position
  trades : List TradeRecord
  equity_curve : List ℚ
  halted : Bool

namespace OrderManager

/-- Python `OrderManager.__init__`: flat position, no trades, equity curve seeded
with the initial capital, not halted. -/
def init {σ : Type} (executor : σ)
    (max_position_size max_drawdown_pct initial_capital : ℚ) : OMState σ :=
  { executor := executor,
    max_position_size := max_position_size,
    max_drawdown_pct := max_drawdown_pct,
    initial_capital := initial_capital,
    position := Position.flat,
    trades := [],
    equity_curve := [initial_capital],
    halted := false }

/-- Python `OrderManager._record_close(exit_price)`: returns the trade list with the
record appended, or unchanged when the position is flat. -/
def record_close {σ : Type} (s : OMState σ) (exit_price : ℚ) :
    List TradeRecord :=
  if s.position.side = 0 then s.trades
  else
    s.trades ++
      [{ side := s.position.side,
         entry := s.position.entry_price,
         exit := exit_price,
         amount := s.position.amount,
         pnl := (exit_price - s.position.entry_price) * s.position.amount
                  * (s.position.side : ℚ) }]

/-- Python `OrderManager.execute_signal(signal, amount, current_price)`
(`order_manager.py`, lines 93-145): force the signal flat when halted; no-op
when the (effective) signal equals the current side; clamp the amount to
`max_position_size`; close any existing position (opposite-side market order
plus a trade record at `current_price`); then open the new position, setting
the in-memory `Position` regardless of the order result, and return the last
order issued. -/
def execute_signal {σ : Type} (B : Broker σ) (s : OMState σ)
    (signal : Int) (amount current_price : ℚ) : OMState σ × Option OrderResult :=
  let signal := if s.halted then 0 else signal
  if signal = s.position.side then (s, none)
  else
    let amount := if s.max_position_size < amount then s.max_position_size else amount
    let closeStep : σ × Option OrderResult :=
      if s.position.side = 1 then B.market_sell s.executor s.position.amount
      else if s.position.side = -1 then B.market_buy s.executor s.position.amount
      else (s.executor, none)
    let trades := record_close s current_price
    if signal = 1 then
      let openStep := B.market_buy closeStep.1 amount
      ({ s with executor := openStep.1, trades := trades,
                 position := { side := 1, entry_price := current_price,
                               amount := amount } },
       openStep.2)
    else if signal = -1 then
      let openStep := B.market_sell closeStep.1 amount
      ({ s with executor := openStep.1, trades := trades,
                 position := { side := -1, entry_price := current_price,
                               amount := amount } },
       openStep.2)
    else
      ({ s with executor := closeStep.1, trades := trades,
                 position := Position.flat },
       closeStep.2)

/-- Python `OrderManager.update_equity(current_price)`: recompute the unrealized PnL
when non-flat, read `USDT_total` from the executor balance (both broker
implementations always populate that key, so the `.get` default is never
taken), append it to the equity curve, and return it. -/
def update_equity {σ : Type} (B : Broker σ) (s : OMState σ)
    (current_price : ℚ) : OMState σ × ℚ :=
  let pos :=
    if s.position.side ≠ 0 then
      { s.position with
        unrealized_pnl := (current_price - s.position.entry_price)
                            * s.position.amount * (s.position.side : ℚ) }
    else s.position
  let equity := (B.get_balance s.executor).usdt_total
  ({ s with position := pos, equity_curve := s.equity_curve ++ [equity] },
   equity)

/-- Numpy `np.maximum.accumulate` seeded with a running maximum `m`. -/
def cummaxFrom (m : ℚ) : List ℚ → List ℚ
  | [] => []
  | x :: xs => max m x :: cummaxFrom (max m x) xs

/-- Numpy `np.maximum.accumulate` over the equity curve. -/
def cummax : List ℚ → List ℚ
  | [] => []
  | x :: xs => x :: cummaxFrom x xs

/-- Python `OrderManager.check_risk()` (`order_manager.py`, lines 76-91): OK (true)
when the equity curve has fewer than 2 samples; otherwise drawdown is
`(last - peak) / peak` when the running peak is positive and `0` otherwise,
and the manager halts (returns false) when `|drawdown|` exceeds
`max_drawdown_pct`. -/
def check_risk {σ : Type} (s : OMState σ) : OMState σ × Bool :=
  if s.equity_curve.length < 2 then (s, true)
  else
    let peak := (cummax s.equity_curve).getLastD 0
    let last := s.equity_curve.getLastD 0
    let dd := if 0 < peak then (last - peak) / peak else 0
    if s.max_drawdown_pct < |dd| then ({ s with halted := true }, false)
    else (s, true)

/-- Python `OrderManager.close_all(current_price)`: flatten any open position with
the opposite-side market order, record the trade, reset to flat, and cancel
outstanding orders. -/
def close_all {σ : Type} (B : Broker σ) (s : OMState σ)
    (current_price : ℚ) : OMState σ :=
  let closeStep : σ × Option OrderResult :=
    if s.position.side = 1 then B.market_sell s.executor s.position.amount
    else if s.position.side = -1 then B.market_buy s.executor s.position.amount
    else (s.executor, none)
  let trades := record_close s current_price
  let cancelStep := B.cancel_all_orders closeStep.1
  { s with executor := cancelStep.1, trades := trades,
           position := Position.flat }

/-- One public call on the order manager. -/
inductive Event where
  | executeSignal (signal : Int) (amount current_price : ℚ)
  | updateEquity (current_price : ℚ)
  | checkRisk
  | closeAll (current_price : ℚ)

/-- Apply one public call to the manager state, discarding the return value. -/
def step {σ : Type} (B : Broker σ) (s : OMState σ) : Event → OMState σ
  | .executeSignal sig amt p => (execute_signal B s sig amt p).1
  | .updateEquity p => (update_equity B s p).1
  | .checkRisk => (check_risk s).1
  | .closeAll p => close_all B s p

/-- Run a sequence of public calls. -/
def run {σ : Type} (B : Broker σ) (s : OMState σ) (es : List Event) :
    OMState σ :=
  es.foldl (step B) s

/-- Run a sequence of `execute_signal(signal, amount, price)` calls. -/
def runSignals {σ : Type} (B : Broker σ) (s : OMState σ)
    (calls : List (Int × ℚ × ℚ)) : OMState σ :=
  calls.foldl (fun s c => (execute_signal B s c.1 c.2.1 c.2.2).1) s

end OrderManager

/-- The Position invariant of the spec's data model: `amount == 0` if and
only if `side == flat`. -/
def posInvariant (p : Position) : Prop :=
  p.amount = 0 ↔ p.side = 0

instance (p : Position) : Decidable (posInvariant p) := by
  unfold posInvariant; infer_instance

namespace SMAVectorBacktester

/-- Pandas `series.shift(1).fillna(0)` on a column. -/
def shiftFill (l : List ℚ) : List ℚ :=
  0 :: l.dropLast

/-- Pandas `series.diff().fillna(0).abs()` on a column. -/
def diffAbs : List ℚ → List ℚ
  | [] => []
  | x :: xs => 0 :: List.zipWith (fun prev cur => |cur - prev|) (x :: xs) xs

/-- The columns added by `SMAVectorBacktester.run`
(`sma_backtester.py`, lines 50-69). -/
structure RunResult where
  position : List ℚ
  strategy : List ℚ
  trades : List ℚ
  strategy_net : List ℚ

/-- Python `SMAVectorBacktester.run` applied to the prepared data: `smaShort`,
`smaLong` and `returns` are the aligned columns left by `_prepare_data` after
`dropna` (the log-return column involves a transcendental `np.log`, so it is
an input series here; the claims proved below hold for every value of it).
The raw signal is `np.where(SMA_short > SMA_long, 1, -1)`, shifted one bar
with `fillna(0)`; `strategy = position * returns`;
`trades = position.diff().fillna(0).abs()`;
`strategy_net = strategy - trades * ptc`.  The cumulative `creturns` and
`cstrategy` columns are not needed by any claim and are omitted. -/
def run (smaShort smaLong returns : List ℚ) (ptc : ℚ) : RunResult :=
  let rawPos := List.zipWith (fun a b => if b < a then (1 : ℚ) else -1) smaShort smaLong
  let position := shiftFill rawPos
  let strategy := List.zipWith (fun p r => p * r) position returns
  let trades := diffAbs position
  let strategy_net := List.zipWith (fun sg t => sg - t * ptc) strategy trades
  { position := position, strategy := strategy, trades := trades,
    strategy_net := strategy_net }

end SMAVectorBacktester

/-- Python `optimal_leverage(mu, sigma, r)` (`performance.py`, lines 155-178):
the Kelly leverage `(mu - r) / sigma ** 2`, or 0 when `sigma <= 0`, here in
exact rational arithmetic. -/
def optimal_leverage (mu sigma r : ℚ) : ℚ :=
  if sigma ≤ 0 then 0 else (mu - r) / sigma ^ 2

/-- Round a rational to the nearest integer, ties to even — the IEEE-754
default rounding direction. -/
def roundNearestEven (q : ℚ) : ℤ :=
  let n := ⌊q⌋
  if q - n < 1/2 then n
  else if 1/2 < q - n then n + 1
  else if n % 2 = 0 then n else n + 1

/-- Round a nonzero rational to the nearest IEEE-754 binary64 value: a finite
normal double is exactly a rational `m * 2 ^ e` with `2 ^ 52 ≤ |m| < 2 ^ 53`,
so rounding scales into that window (`Int.log 2 |q|` is the floor of the
base-2 logarithm) and rounds the significand to nearest, ties to even.
Overflow and subnormals are ignored — adequate for the magnitudes appearing
in the claims. -/
def fl (q : ℚ) : ℚ :=
  if q = 0 then 0
  else (roundNearestEven (q / 2 ^ (Int.log 2 |q| - 52)) : ℚ)
         * 2 ^ (Int.log 2 |q| - 52)

/-- The IEEE-double evaluation of `optimal_leverage`'s arithmetic as the
Python interpreter performs it on binary64 floats: the inputs are doubles,
the comparison `sigma <= 0` is exact, and each arithmetic operation rounds
its exact result to the nearest double (for doubles, `sigma ** 2` equals the
correctly rounded `sigma * sigma`; `mu - r` and the division are single
correctly rounded operations). -/
def optimal_leverage_float (mu sigma r : ℚ) : ℚ :=
  if sigma ≤ 0 then 0 else fl (fl (mu - r) / fl (sigma * sigma))

/-!
Concrete instances used by the counterexamples and witnesses below.
-/

/-- A paper ledger with 1000 USDT and an (extreme) 50% proportional cost, so
that a single round trip already breaches a 15% drawdown limit. -/
def paperDemo : PaperState := PaperExecutor.init 1000 (1/2) 0

/-- An order manager over `paperDemo` with `max_position_size = 1`,
`max_drawdown_pct = 0.15`, `initial_capital = 1000`. -/
def omDemo : OMState PaperState := OrderManager.init paperDemo 1 (3/20) 1000

/-- A reachable halted state holding a long position: buy 0.01 BTC at the
paper price 50000 (cost 500, transaction cost 250), mark equity to market
(750 against a 1000 peak, an exact 25% drawdown), then run the risk check,
which trips the breaker while the position is still long. -/
def haltedDemo : OMState PaperState :=
  OrderManager.run paperBroker omDemo
    [.executeSignal 1 (1/100) 50000, .updateEquity 50000, .checkRisk]

/-- A paper ledger with no cash and no inventory: every non-degenerate buy or
plain sell is rejected. -/
def paperPoor : PaperState := PaperExecutor.init 0 (1/2000) 0

/-- An order manager over the empty ledger `paperPoor`. -/
def omPoor : OMState PaperState := OrderManager.init paperPoor 1 (3/20) 1000

/-- A paper ledger with 10000 USDT and the default costs of the repository
(`ptc = 0.0005`, `ftc = 0`), at the default last price 50000. -/
def paperRich : PaperState := PaperExecutor.init 10000 (1/2000) 0

/-- An order-manager state whose equity curve is the all-negative `[-10, -20]`
(the running peak is not positive). -/
def omNegCurve : OMState PaperState := { omDemo with equity_curve := [-10, -20] }

/-- An order-manager state with equity curve `[1000, 1000, 820]` and
`max_drawdown_pct = 0.15`, the spec's drawdown-breaker example. -/
def omBreach : OMState PaperState := { omDemo with equity_curve := [1000, 1000, 820] }

/-- The demo manager with the circuit breaker already tripped. -/
def omHalted : OMState PaperState := { omDemo with halted := true }

/-!
### Helper lemmas
-/

theorem diffAbs_length (l : List ℚ) :
    (SMAVectorBacktester.diffAbs l).length = l.length := by
  cases l with
  | nil => rfl
  | cons x xs => simp [SMAVectorBacktester.diffAbs, List.length_zipWith]

theorem zipWith_sub_mul_zero (a b : List ℚ) (h : a.length ≤ b.length) :
    List.zipWith (fun sg t => sg - t * 0) a b = a := by
  induction a generalizing b with
  | nil => rfl
  | cons x xs ih =>
    cases b with
    | nil => simp at h
    | cons y ys =>
      show (x - y * 0) :: List.zipWith _ xs ys = x :: xs
      rw [mul_zero, sub_zero, ih ys (by simpa using h)]

/-!
### Claims about the simulated-ledger executor and the sizing policy
-/

/-- **C6**: the paper `market_buy` returns `none` exactly when the resulting
cash balance would go negative (notional plus transaction cost exceeds the
available cash), and `market_sell` without `reduce_only` returns `none`
exactly when the requested amount exceeds the held inventory; a rejected call
leaves the whole ledger state (cash, asset balance and trade log)
unchanged. -/
theorem C6_paper_reject (s : PaperState) (amount : ℚ) :
    ((PaperExecutor.market_buy s amount).2 = none ↔
       s.usdt - (amount * s.lastPrice + (amount * s.lastPrice * s.ptc + s.ftc)) < 0) ∧
    ((PaperExecutor.market_buy s amount).2 = none →
       (PaperExecutor.market_buy s amount).1 = s) ∧
    ((PaperExecutor.market_sell s amount false).2 = none ↔ s.btc < amount) ∧
    ((PaperExecutor.market_sell s amount false).2 = none →
       (PaperExecutor.market_sell s amount false).1 = s) := by
  refine ⟨?_, ?_, ?_, ?_⟩ <;>
    simp only [PaperExecutor.market_buy, PaperExecutor.market_sell,
      PaperExecutor.log_order] <;>
    split_ifs with h <;> simp_all [sub_neg]

/-- Witness for C6: on the empty ledger, a buy of 1 BTC and a plain sell of
1 BTC are both rejected and leave the ledger untouched. -/
theorem C6_witness :
    (PaperExecutor.market_buy paperPoor 1).1 = paperPoor ∧
    (PaperExecutor.market_sell paperPoor 1 false).1 = paperPoor := by
  have h := C6_paper_reject paperPoor 1
  exact ⟨h.2.1 (by norm_num [paperPoor, PaperExecutor.init, PaperExecutor.market_buy]),
         h.2.2.2 (by norm_num [paperPoor, PaperExecutor.init, PaperExecutor.market_sell])⟩

/-- **C10**: the paper `market_sell` with a truthy `reduce_only` keyword skips
the inventory check entirely: it fills for any requested amount and subtracts
it from the asset balance, driving that balance negative when the amount
exceeds the inventory; the `none` rejection applies exactly when
`reduce_only` is absent or falsy and the amount exceeds the inventory. -/
theorem C10_reduce_only (s : PaperState) (amount : ℚ) :
    (PaperExecutor.market_sell s amount true).2.isSome = true ∧
    (PaperExecutor.market_sell s amount true).1.btc = s.btc - amount ∧
    (s.btc < amount → (PaperExecutor.market_sell s amount true).1.btc < 0) ∧
    ((PaperExecutor.market_sell s amount false).2 = none ↔ s.btc < amount) := by
  simp only [PaperExecutor.market_sell, PaperExecutor.log_order]
  refine ⟨by simp, by simp, fun h => by simp; linarith, ?_⟩
  split_ifs with hc <;> simp_all

/-- Witness for C10: a reduce-only sell of 1 BTC against zero inventory fills
and leaves the asset balance negative. -/
theorem C10_witness :
    (PaperExecutor.market_sell paperPoor 1 true).2.isSome = true ∧
    (PaperExecutor.market_sell paperPoor 1 true).1.btc < 0 := by
  have h := C10_reduce_only paperPoor 1
  exact ⟨h.1, h.2.2.1 (by norm_num [paperPoor, PaperExecutor.init])⟩

/-- **C7 (counterexample)**: on the simulated executor with
`proportionalCost = 0.0005` and `fixedCost = 0`, a market buy of 0.1 BTC at
price 50000 deducts 5002.5 from cash — not the 2500.125 the claim asserts
(the claim's own formula `0.1 * 50000 * 1.0005` evaluates to 5002.5). -/
theorem C7_counterexample :
    paperRich.usdt - (PaperExecutor.market_buy paperRich (1/10)).1.usdt = 5002.5 ∧
    ((5002.5 : ℚ) ≠ 2500.125) := by
  norm_num [paperRich, PaperExecutor.init, PaperExecutor.market_buy,
    PaperExecutor.log_order]

/-- **C7 (amended)**: with `proportionalCost = 0.0005`, `fixedCost = 0` and
enough cash, a market buy of 0.1 BTC at the ledger price 50000 fills and
deducts exactly `0.1 * 50000 * (1 + 0.0005) = 5002.5` from the cash
balance. -/
theorem C7_cost_model (u : ℚ) (h : 5002.5 ≤ u) :
    (PaperExecutor.market_buy (PaperExecutor.init u (1/2000) 0) (1/10)).2.isSome = true ∧
    (PaperExecutor.init u (1/2000) 0).usdt -
        (PaperExecutor.market_buy (PaperExecutor.init u (1/2000) 0) (1/10)).1.usdt =
      (1/10 : ℚ) * 50000 * (1 + 1/2000) ∧
    ((1/10 : ℚ) * 50000 * (1 + 1/2000) = 5002.5) := by
  simp only [PaperExecutor.market_buy, PaperExecutor.init, PaperExecutor.log_order]
  split_ifs with hc
  · exfalso; norm_num at hc; linarith
  · norm_num

/-- Witness for C7 (amended), at a 10000 USDT ledger. -/
theorem C7_witness :
    (PaperExecutor.market_buy (PaperExecutor.init 10000 (1/2000) 0) (1/10)).2.isSome = true ∧
    (PaperExecutor.init 10000 (1/2000) 0).usdt -
        (PaperExecutor.market_buy (PaperExecutor.init 10000 (1/2000) 0) (1/10)).1.usdt =
      (1/10 : ℚ) * 50000 * (1 + 1/2000) ∧
    ((1/10 : ℚ) * 50000 * (1 + 1/2000) = 5002.5) :=
  C7_cost_model 10000 (by norm_num)

/-- **C8**: with zero proportional cost, the `strategy_net` column produced by
the backtester's `run` is pointwise exactly the gross `strategy` column, for
every input series. -/
theorem C8_zero_cost_equivalence (smaShort smaLong returns : List ℚ) :
    (SMAVectorBacktester.run smaShort smaLong returns 0).strategy_net =
      (SMAVectorBacktester.run smaShort smaLong returns 0).strategy := by
  simp only [SMAVectorBacktester.run]
  apply zipWith_sub_mul_zero
  rw [diffAbs_length]
  simp only [List.length_zipWith]
  exact Nat.min_le_left _ _

theorem int_log_eq {q : ℚ} {e : ℤ} (hq : 0 < q) (h1 : (2:ℚ)^e ≤ q)
    (h2 : q < (2:ℚ)^(e+1)) : Int.log 2 q = e :=
  le_antisymm (Int.lt_add_one_iff.mp ((Int.lt_zpow_iff_log_lt (by norm_num) hq).mp h2))
    ((Int.zpow_le_iff_le_log (by norm_num) hq).mp h1)

theorem roundNearestEven_down {q : ℚ} {n : ℤ} (hn : ⌊q⌋ = n) (h : q - n < 1/2) :
    roundNearestEven q = n := by
  simp only [roundNearestEven, hn]
  rw [if_pos h]

theorem roundNearestEven_up {q : ℚ} {n : ℤ} (hn : ⌊q⌋ = n) (h : 1/2 < q - n) :
    roundNearestEven q = n + 1 := by
  simp only [roundNearestEven, hn]
  rw [if_neg (by linarith), if_pos h]

theorem fl_eq_of {q v : ℚ} {E n : ℤ} (hq : 0 < q)
    (hlow : (2:ℚ) ^ E ≤ q) (hhigh : q < (2:ℚ) ^ (E + 1))
    (hround : roundNearestEven (q / 2 ^ (E - 52)) = n)
    (hv : (n : ℚ) * 2 ^ (E - 52) = v) :
    fl q = v := by
  have hlog : Int.log 2 |q| = E := by
    rw [abs_of_pos hq]; exact int_log_eq hq hlow hhigh
  simp only [fl]
  rw [if_neg (ne_of_gt hq), hlog, hround, hv]

/-- The decimal literal 0.1, parsed to the nearest double (one ulp above
1/10, as in Python). -/
theorem fl_tenth : fl (0.10 : ℚ) = 3602879701896397 / 2 ^ 55 :=
  fl_eq_of (E := -4) (n := 7205759403792794) (by norm_num) (by norm_num) (by norm_num)
    (by rw [show ((0.10 : ℚ) / 2 ^ ((-4 : ℤ) - 52)) = 36028797018963968/5 from by norm_num]
        exact (roundNearestEven_up (n := 7205759403792793)
            (by rw [Int.floor_eq_iff]; norm_num) (by norm_num)).trans (by norm_num))
    (by norm_num)

/-- The decimal literal 0.2, parsed to the nearest double. -/
theorem fl_fifth : fl (0.20 : ℚ) = 3602879701896397 / 2 ^ 54 :=
  fl_eq_of (E := -3) (n := 7205759403792794) (by norm_num) (by norm_num) (by norm_num)
    (by rw [show ((0.20 : ℚ) / 2 ^ ((-3 : ℤ) - 52)) = 36028797018963968/5 from by norm_num]
        exact (roundNearestEven_up (n := 7205759403792793)
            (by rw [Int.floor_eq_iff]; norm_num) (by norm_num)).trans (by norm_num))
    (by norm_num)

/-- The double evaluation of `(0.1 - 0.0) / (0.2 ** 2)`, step by step:
the subtraction is exact, `0.2 * 0.2` rounds *up* to
`0.04000000000000001 = 5764607523034236 * 2 ^ (-57)`, and the division then
rounds *down* to `5629499534213119 * 2 ^ (-51)`, one ulp below 2.5. -/
theorem optimal_leverage_float_eval :
    optimal_leverage_float (fl 0.10) (fl 0.20) 0 = 5629499534213119 / 2 ^ 51 := by
  rw [fl_tenth, fl_fifth]
  simp only [optimal_leverage_float]
  rw [if_neg (by norm_num : ¬ ((3602879701896397 / 2 ^ 54 : ℚ) ≤ 0))]
  have ha2 : fl ((3602879701896397 : ℚ) / 2 ^ 55 - 0) = 3602879701896397 / 2 ^ 55 :=
    fl_eq_of (E := -4) (n := 7205759403792794) (by norm_num) (by norm_num) (by norm_num)
      (by rw [show (((3602879701896397 : ℚ) / 2 ^ 55 - 0) / 2 ^ ((-4 : ℤ) - 52))
                = 7205759403792794 from by norm_num]
          exact roundNearestEven_down (by rw [Int.floor_eq_iff]; norm_num) (by norm_num))
      (by norm_num)
  have hp : fl ((3602879701896397 / 2 ^ 54 : ℚ) * (3602879701896397 / 2 ^ 54)) =
      5764607523034236 / 2 ^ 57 :=
    fl_eq_of (E := -5) (n := 5764607523034236) (by norm_num) (by norm_num) (by norm_num)
      (by rw [show (((3602879701896397 / 2 ^ 54 : ℚ) * (3602879701896397 / 2 ^ 54))
                  / 2 ^ ((-5 : ℤ) - 52))
                = 12980742146337070512478121581609/2251799813685248 from by norm_num]
          exact (roundNearestEven_up (n := 5764607523034235)
              (by rw [Int.floor_eq_iff]; norm_num) (by norm_num)).trans (by norm_num))
      (by norm_num)
  rw [ha2, hp]
  have hq2 : fl ((3602879701896397 / 2 ^ 55 : ℚ) / (5764607523034236 / 2 ^ 57)) =
      5629499534213119 / 2 ^ 51 :=
    fl_eq_of (E := 1) (n := 5629499534213119) (by norm_num) (by norm_num) (by norm_num)
      (by rw [show (((3602879701896397 / 2 ^ 55 : ℚ) / (5764607523034236 / 2 ^ 57))
                  / 2 ^ ((1 : ℤ) - 52))
                = 8112963841460668619938863251456/1441151880758559 from by norm_num]
          exact roundNearestEven_down (by rw [Int.floor_eq_iff]; norm_num) (by norm_num))
      (by norm_num)
  rw [hq2]

/-- **C9 (counterexample)**: the program computes
`optimal_leverage(0.10, 0.20, 0.0)` in IEEE doubles — the decimal literals
round to doubles and each operation is correctly rounded — and the result is
*not* 2.5: it is exactly one ulp below (printed 2.4999999999999996). -/
theorem C9_counterexample :
    optimal_leverage_float (fl 0.10) (fl 0.20) 0 ≠ 2.5 := by
  rw [optimal_leverage_float_eval]; norm_num

/-- **C9 (amended)**: `optimal_leverage` is `(mu - r) / sigma ^ 2` for
positive `sigma` and 0 for `sigma ≤ 0`, and the exact value at
`(0.10, 0.20, 0)` is 2.5; the program's IEEE-double evaluation of that
instance, however, returns `2.5 - 2 ^ (-51)` — within the `1e-10` tolerance
the repository's own test asserts — while `optimal_leverage(mu, 0.0, r)` is
exactly 0.0, also in doubles. -/
theorem C9_optimal_leverage :
    (∀ mu sigma r : ℚ, 0 < sigma → optimal_leverage mu sigma r = (mu - r) / sigma ^ 2) ∧
    (∀ mu sigma r : ℚ, sigma ≤ 0 → optimal_leverage mu sigma r = 0) ∧
    optimal_leverage 0.10 0.20 0 = 2.5 ∧
    optimal_leverage_float (fl 0.10) (fl 0.20) 0 = 2.5 - 1 / 2 ^ 51 ∧
    |optimal_leverage_float (fl 0.10) (fl 0.20) 0 - 2.5| < 1e-10 ∧
    (∀ mu r : ℚ, optimal_leverage_float mu 0 r = 0) := by
  refine ⟨fun mu sigma r h => ?_, fun mu sigma r h => ?_, by norm_num [optimal_leverage],
    ?_, ?_, fun mu r => ?_⟩
  · rw [optimal_leverage, if_neg (not_le.mpr h)]
  · rw [optimal_leverage, if_pos h]
  · rw [optimal_leverage_float_eval]; norm_num
  · rw [optimal_leverage_float_eval, abs_sub_comm,
      show (2.5 : ℚ) - 5629499534213119 / 2 ^ 51 = 1 / 2 ^ 51 from by norm_num, abs_div]
    norm_num
  · rw [optimal_leverage_float, if_pos le_rfl]

/-- Witness for C9, at the spec's Kelly example `(0.10, 0.20, 0)`. -/
theorem C9_witness :
    (0 : ℚ) < 0.20 ∧ optimal_leverage 0.10 0.20 0 = (0.10 - 0) / 0.20 ^ 2 :=
  ⟨by norm_num, C9_optimal_leverage.1 0.10 0.20 0 (by norm_num)⟩

/-!
### Claims about the order manager
-/

theorem execute_signal_mps {σ : Type} (B : Broker σ) (s : OMState σ)
    (sig : Int) (amt p : ℚ) :
    (OrderManager.execute_signal B s sig amt p).1.max_position_size
      = s.max_position_size := by
  simp only [OrderManager.execute_signal]
  split_ifs <;> rfl

theorem execute_signal_position_cases {σ : Type} (B : Broker σ) (s : OMState σ)
    (sig : Int) (amt p : ℚ) :
    (OrderManager.execute_signal B s sig amt p).1.position = s.position ∨
    (OrderManager.execute_signal B s sig amt p).1.position = Position.flat ∨
    ((OrderManager.execute_signal B s sig amt p).1.position.side = 1 ∨
       (OrderManager.execute_signal B s sig amt p).1.position.side = -1) ∧
      (OrderManager.execute_signal B s sig amt p).1.position.amount =
        (if s.max_position_size < amt then s.max_position_size else amt) := by
  simp only [OrderManager.execute_signal]
  split_ifs <;> simp_all [Position.flat]

theorem execute_signal_preserves_posInvariant {σ : Type} (B : Broker σ)
    (s : OMState σ) (sig : Int) (amt p : ℚ)
    (hmps : s.max_position_size ≠ 0) (hamt : amt ≠ 0)
    (hs : posInvariant s.position) :
    posInvariant (OrderManager.execute_signal B s sig amt p).1.position := by
  rcases execute_signal_position_cases B s sig amt p with h | h | ⟨hside, hamount⟩
  · rw [h]; exact hs
  · rw [h]; simp [posInvariant, Position.flat]
  · constructor
    · intro h0
      rw [hamount] at h0
      exfalso
      revert h0
      split_ifs
      · exact hmps
      · exact hamt
    · intro h0
      rcases hside with h1 | h1 <;> rw [h0] at h1 <;> exact absurd h1 (by decide)

theorem runSignals_posInvariant {σ : Type} (B : Broker σ) :
    ∀ (calls : List (Int × ℚ × ℚ)) (s : OMState σ),
      s.max_position_size ≠ 0 → posInvariant s.position →
      (∀ c ∈ calls, c.2.1 ≠ 0) →
      posInvariant (OrderManager.runSignals B s calls).position := by
  intro calls
  induction calls with
  | nil => intro s _ hs _; exact hs
  | cons c cs ih =>
    intro s hmps hs hc
    simp only [OrderManager.runSignals, List.foldl_cons]
    have h1 : (OrderManager.execute_signal B s c.1 c.2.1 c.2.2).1.max_position_size ≠ 0 := by
      rw [execute_signal_mps]; exact hmps
    have h2 := execute_signal_preserves_posInvariant B s c.1 c.2.1 c.2.2 hmps
      (hc c (List.mem_cons_self c cs)) hs
    exact ih _ h1 h2 (fun d hd => hc d (List.mem_cons_of_mem c hd))

/-- **C1 (amended)**: for every broker, every manager configuration with a
nonzero `max_position_size`, and every sequence of `execute_signal` calls
whose `amount` arguments are all nonzero, the Position invariant
`amount == 0 ⟺ side == 0` holds after each call. -/
theorem C1_position_invariant {σ : Type} (B : Broker σ) (e : σ)
    (mps mdd cap : ℚ) (calls : List (Int × ℚ × ℚ))
    (hmps : mps ≠ 0) (hamt : ∀ c ∈ calls, c.2.1 ≠ 0) :
    posInvariant (OrderManager.runSignals B
      (OrderManager.init e mps mdd cap) calls).position :=
  runSignals_posInvariant B calls _ hmps
    (by simp [OrderManager.init, posInvariant, Position.flat]) hamt

/-- **C1 (counterexample)**: a single `execute_signal(+1, amount = 0, 100)`
call on a fresh manager leaves the Position with `side = 1` and `amount = 0`,
violating the invariant — so it does not hold for *any* amounts. -/
theorem C1_counterexample :
    ¬ posInvariant (OrderManager.runSignals paperBroker omDemo
      [(1, 0, 100)]).position := by
  norm_num [OrderManager.runSignals, OrderManager.execute_signal, omDemo, paperDemo,
    OrderManager.init, OrderManager.record_close, Position.flat, paperBroker,
    PaperExecutor.init, PaperExecutor.market_buy, PaperExecutor.log_order,
    posInvariant]

/-- Witness for C1 (amended): one long entry of 0.01 BTC. -/
theorem C1_witness :
    posInvariant (OrderManager.runSignals paperBroker
      (OrderManager.init paperDemo 1 (3/20) 1000) [(1, 1/100, 50000)]).position :=
  C1_position_invariant paperBroker paperDemo 1 (3/20) 1000 [(1, 1/100, 50000)]
    (by norm_num)
    (by intro c hc; simp only [List.mem_singleton] at hc; rw [hc]; norm_num)

/-- **C2**: once `halted` is true, no public call (`execute_signal`,
`update_equity`, `check_risk`, `close_all`) ever clears it; every
`execute_signal` behaves exactly as if its signal were 0; and no long or
short position survives such a call, so none is ever opened while halted. -/
theorem C2_halted_permanent {σ : Type} (B : Broker σ) (s : OMState σ)
    (h : s.halted = true) :
    (∀ e, (OrderManager.step B s e).halted = true) ∧
    (∀ (sig : Int) (amt p : ℚ), OrderManager.execute_signal B s sig amt p =
       OrderManager.execute_signal B s 0 amt p) ∧
    (∀ (sig : Int) (amt p : ℚ),
       (OrderManager.execute_signal B s sig amt p).1.position.side = 0) := by
  have hes : ∀ (sig : Int) (amt p : ℚ),
      OrderManager.execute_signal B s sig amt p =
        OrderManager.execute_signal B s 0 amt p := by
    intro sig amt p
    simp only [OrderManager.execute_signal, h, if_true]
  refine ⟨?_, hes, ?_⟩
  · intro e
    cases e with
    | executeSignal sig amt p =>
      show (OrderManager.execute_signal B s sig amt p).1.halted = true
      simp only [OrderManager.execute_signal]
      split_ifs <;> simp [h]
    | updateEquity p =>
      show (OrderManager.update_equity B s p).1.halted = true
      simp only [OrderManager.update_equity]
      exact h
    | checkRisk =>
      show (OrderManager.check_risk s).1.halted = true
      simp only [OrderManager.check_risk]
      split_ifs <;> simp [h]
    | closeAll p =>
      show (OrderManager.close_all B s p).halted = true
      simp only [OrderManager.close_all]
      exact h
  · intro sig amt p
    rw [hes sig amt p]
    simp only [OrderManager.execute_signal, h, if_true]
    by_cases h0 : (0 : Int) = s.position.side
    · rw [if_pos h0]; exact h0.symm
    · rw [if_neg h0]; norm_num [Position.flat]

/-- Witness for C2, on the halted demo manager. -/
theorem C2_witness :
    (OrderManager.step paperBroker omHalted .checkRisk).halted = true ∧
    OrderManager.execute_signal paperBroker omHalted 1 (1/2) 100 =
      OrderManager.execute_signal paperBroker omHalted 0 (1/2) 100 ∧
    (OrderManager.execute_signal paperBroker omHalted 1 (1/2) 100).1.position.side
      = 0 := by
  have h := C2_halted_permanent paperBroker omHalted rfl
  exact ⟨h.1 _, h.2.1 1 (1/2) 100, h.2.2 1 (1/2) 100⟩

/-- **C4 (counterexample)**: on a ledger with zero cash, the opening market
buy of `execute_signal(+1, 0.01, 50000)` is rejected (the returned order is
`none`), yet the in-memory Position *is* set to the new long value. -/
theorem C4_counterexample :
    (OrderManager.execute_signal paperBroker omPoor 1 (1/100) 50000).2 = none ∧
    (OrderManager.execute_signal paperBroker omPoor 1 (1/100) 50000).1.position =
      { side := 1, entry_price := 50000, amount := 1/100 } := by
  norm_num [OrderManager.execute_signal, omPoor, paperPoor, OrderManager.init,
    OrderManager.record_close, Position.flat, paperBroker, PaperExecutor.init,
    PaperExecutor.market_buy, PaperExecutor.log_order]

/-- **C4 (amended)**: when not halted and the target side differs from the
current one, `execute_signal` sets the Position to the intended new
long/short value *unconditionally* — in particular also when the executor
rejects the opening order — for every broker implementation. -/
theorem C4_position_updated_on_reject {σ : Type} (B : Broker σ) (s : OMState σ)
    (amt p : ℚ) (h : s.halted = false) :
    (s.position.side ≠ 1 →
      (OrderManager.execute_signal B s 1 amt p).1.position =
        { side := 1, entry_price := p,
          amount := if s.max_position_size < amt then s.max_position_size else amt }) ∧
    (s.position.side ≠ -1 →
      (OrderManager.execute_signal B s (-1) amt p).1.position =
        { side := -1, entry_price := p,
          amount := if s.max_position_size < amt then s.max_position_size else amt }) := by
  constructor <;> intro hside <;>
    simp only [OrderManager.execute_signal, h] <;>
    rw [if_neg (fun hh => hside hh.symm)] <;>
    split_ifs <;> simp_all

/-- Witness for C4 (amended): a rejected long entry on the empty ledger. -/
theorem C4_witness :
    (OrderManager.execute_signal paperBroker omPoor 1 (1/2) 77).1.position =
      { side := 1, entry_price := 77,
        amount := if omPoor.max_position_size < 1/2 then omPoor.max_position_size
                  else 1/2 } :=
  (C4_position_updated_on_reject paperBroker omPoor (1/2) 77 rfl).1
    (by norm_num [omPoor, OrderManager.init, Position.flat])

/-- **C5 (counterexample)**: `haltedDemo` is a reachable state (built by
running three public calls from a fresh manager) that is halted while still
long; calling `execute_signal` with the *same* signal as the current side
(+1) is then not a no-op: the forced flatten issues a sell order and appends
a Trade Record. -/
theorem C5_counterexample :
    haltedDemo.halted = true ∧
    haltedDemo.position.side = 1 ∧
    (OrderManager.execute_signal paperBroker haltedDemo 1 (1/100) 60000).2.isSome
      = true ∧
    (OrderManager.execute_signal paperBroker haltedDemo 1 (1/100) 60000).1.trades.length
      = haltedDemo.trades.length + 1 := by
  norm_num [haltedDemo, omDemo, paperDemo, OrderManager.run, OrderManager.step,
    OrderManager.execute_signal, OrderManager.update_equity, OrderManager.check_risk,
    OrderManager.record_close, OrderManager.init, OrderManager.cummax,
    OrderManager.cummaxFrom, Position.flat, paperBroker, PaperExecutor.init,
    PaperExecutor.market_buy, PaperExecutor.market_sell, PaperExecutor.get_balance,
    PaperExecutor.log_order, List.getLastD, List.foldl_cons, List.foldl_nil,
    abs_div, abs_neg, abs_one]

/-- **C5 (amended)**: for every broker and every manager state that is *not*
halted, calling `execute_signal` with the signal equal to the current
position's side — any amount, any price — returns no order and leaves the
state (trades, executor, position) completely unchanged. -/
theorem C5_same_signal_noop {σ : Type} (B : Broker σ) (s : OMState σ)
    (amt p : ℚ) (h : s.halted = false) :
    OrderManager.execute_signal B s s.position.side amt p = (s, none) := by
  simp [OrderManager.execute_signal, h]

/-- Witness for C5 (amended), on the fresh demo manager. -/
theorem C5_witness :
    OrderManager.execute_signal paperBroker omDemo omDemo.position.side (1/2) 100 =
      (omDemo, none) :=
  C5_same_signal_noop paperBroker omDemo (1/2) 100 rfl

theorem cummaxFrom_getLastD (l : List ℚ) :
    ∀ m : ℚ, (OrderManager.cummaxFrom m l).getLastD m = l.foldl max m := by
  induction l with
  | nil => intro m; rfl
  | cons x xs ih =>
    intro m
    show (max m x :: OrderManager.cummaxFrom (max m x) xs).getLastD m = _
    rw [List.getLastD_cons, ih (max m x)]
    rfl

theorem foldl_max_le (l : List ℚ) :
    ∀ m b : ℚ, m ≤ b → (∀ y ∈ l, y ≤ b) → l.foldl max m ≤ b := by
  induction l with
  | nil => intro m b hm _; exact hm
  | cons x xs ih =>
    intro m b hm hl
    exact ih (max m x) b (max_le hm (hl x (List.mem_cons_self x xs)))
      (fun y hy => hl y (List.mem_cons_of_mem x hy))

theorem le_foldl_max (l : List ℚ) : ∀ m : ℚ, m ≤ l.foldl max m := by
  induction l with
  | nil => intro m; exact le_rfl
  | cons x xs ih => intro m; exact le_trans (le_max_left m x) (ih (max m x))

theorem mem_le_foldl_max (l : List ℚ) :
    ∀ (m y : ℚ), y ∈ l → y ≤ l.foldl max m := by
  induction l with
  | nil => intro m y hy; cases hy
  | cons x xs ih =>
    intro m y hy
    cases hy with
    | head => exact le_trans (le_max_right m x) (le_foldl_max xs (max m x))
    | tail _ hy => exact ih (max m x) y hy

/-- The last entry of the running maximum of a nonempty list is its maximum:
any member that bounds the whole list. -/
theorem cummax_peak (x : ℚ) (xs : List ℚ) (peak : ℚ)
    (hmem : peak ∈ x :: xs) (hub : ∀ y ∈ x :: xs, y ≤ peak) :
    (OrderManager.cummax (x :: xs)).getLastD 0 = peak := by
  have h1 : (OrderManager.cummax (x :: xs)).getLastD 0 = xs.foldl max x := by
    show (x :: OrderManager.cummaxFrom x xs).getLastD 0 = _
    rw [List.getLastD_cons, cummaxFrom_getLastD]
  rw [h1]
  apply le_antisymm
  · exact foldl_max_le xs x peak (hub x (List.mem_cons_self x xs))
      (fun y hy => hub y (List.mem_cons_of_mem x hy))
  · cases hmem with
    | head => exact le_foldl_max xs x
    | tail _ hmem => exact mem_le_foldl_max xs x peak hmem

/-- **C3 (amended)**: `check_risk` returns true (leaving the state unchanged)
when the equity curve has fewer than 2 samples; with at least 2 samples and
`peak` the running maximum of the curve, the drawdown is
`(latest - peak) / peak` when the peak is positive and 0 otherwise, and
`check_risk` halts the manager and returns false exactly when `|drawdown|`
exceeds `max_drawdown_pct` (so it returns false on the curve
`[1000, 1000, 820]` with a 0.15 limit — see the witness). -/
theorem C3_check_risk {σ : Type} (s : OMState σ) :
    (s.equity_curve.length < 2 → OrderManager.check_risk s = (s, true)) ∧
    (∀ peak : ℚ, peak ∈ s.equity_curve → (∀ y ∈ s.equity_curve, y ≤ peak) →
      2 ≤ s.equity_curve.length →
      OrderManager.check_risk s =
        (if s.max_drawdown_pct <
              |if 0 < peak then (s.equity_curve.getLastD 0 - peak) / peak else 0|
         then ({ s with halted := true }, false)
         else (s, true))) := by
  constructor
  · intro hlen
    simp [OrderManager.check_risk, hlen]
  · intro peak hmem hub hlen
    obtain ⟨x, xs, hx⟩ : ∃ x xs, s.equity_curve = x :: xs := by
      cases hcurve : s.equity_curve with
      | nil => rw [hcurve] at hlen; simp at hlen
      | cons a l => exact ⟨a, l, rfl⟩
    have hpk : (OrderManager.cummax s.equity_curve).getLastD 0 = peak := by
      rw [hx]
      exact cummax_peak x xs peak (hx ▸ hmem) (hx ▸ hub)
    simp only [OrderManager.check_risk, hpk]
    rw [if_neg (not_lt.mpr hlen)]

/-- Witness for C3 (amended): the spec's drawdown-breaker example — equity
curve `[1000, 1000, 820]`, `max_drawdown_pct = 0.15` — halts and returns
false. -/
theorem C3_witness :
    OrderManager.check_risk omBreach = ({ omBreach with halted := true }, false) := by
  have h := (C3_check_risk omBreach).2 1000
    (by simp [omBreach, omDemo, OrderManager.init])
    (by intro y hy
        simp only [omBreach, omDemo, OrderManager.init] at hy
        fin_cases hy <;> norm_num)
    (by simp [omBreach, omDemo, OrderManager.init])
  rw [h]
  norm_num [omBreach, omDemo, OrderManager.init, List.getLastD, abs_div]

/-- **C3 (counterexample)**: on the all-negative equity curve `[-10, -20]`
(whose running peak is `-10`), the claim's drawdown formula yields
`|(-20 - -10) / -10| = 1 > 0.15`, so the claim predicts `check_risk` returns
false — but the code treats a non-positive peak as zero drawdown and returns
true. -/
theorem C3_counterexample :
    (OrderManager.cummax omNegCurve.equity_curve).getLastD 0 = -10 ∧
    omNegCurve.max_drawdown_pct < |((-20 : ℚ) - -10) / -10| ∧
    (OrderManager.check_risk omNegCurve).2 = true := by
  norm_num [omNegCurve, omDemo, OrderManager.init, OrderManager.check_risk,
    OrderManager.cummax, OrderManager.cummaxFrom, List.getLastD, abs_div, abs_neg]

end AlgoTrader
